import Mathlib

/-!
Shallow embedding of `src/index.js` of the seed-dispersal repository.

JavaScript strings are modelled as `List Char`, a character's numeric code
being `Char.toNat` (the corpus texts are plain-ASCII book files, where a
JS code unit and a code point coincide).  JS regular expressions are
modelled by executable matchers that reproduce the backtracking behaviour
of the concrete patterns appearing in the source.  Callback-passing style
is modelled by explicit state passing; a JS exception that escapes the
callbacks is an outer `Except.error`, while an error delivered through a
callback's `err` argument is an inner `Except.error`.
-/

/-! ### Index Derivation Function — `getNextIndex`, src/index.js lines 25-33 -/

/-- `getNextIndex(paragraph)`: starts an accumulator at 0 and adds the
numeric code of every character of the string in iteration order
(`paragraph.split('').forEach(addCharCode)` in the source). -/
def getNextIndex (paragraph : List Char) : Nat :=
  paragraph.foldl (fun nextIndex char => nextIndex + char.toNat) 0

/-! ### `clampBookId`, src/index.js lines 21-23 -/

/-- `clampBookId(id) = id % config.get('gutenberg.maxId')`. -/
def clampBookId (maxId : Nat) (id : Nat) : Nat :=
  id % maxId

/-! ### Rate Limiter — `getRateTimeout`, src/index.js lines 35-49 -/

/-- The rate-limit response metadata carried by `headers`:
`x-ratelimit-remaining` and `x-ratelimit-reset` (seconds since epoch). -/
structure RateHeaders where
  remaining : Int
  reset : Int
deriving DecidableEq, Repr

/-- `getRateTimeout(headers)`: throws when `headers` is absent
(modelled as `Except.error ()`), returns `reset * 1000 - Date.now()`
when the remaining quota is below 1, and returns 0 otherwise. -/
def getRateTimeout (headers : Option RateHeaders) (now : Int) : Except Unit Int :=
  match headers with
  | none => .error ()
  | some h =>
    if h.remaining < 1 then .ok (h.reset * 1000 - now)
    else .ok 0

/-! ### Paragraph selection — `getParagraph`, src/index.js lines 200-206 -/

/-- Auxiliary splitter: `text.split(/\n{2,}/)`.  A greedy `\n{2,}` match
consumes a maximal run of at least two newlines; the pieces between
the matches are returned, so a text with no separator yields one piece
and the empty text yields one empty piece. -/
def splitParagraphsAux : List Char → List Char → List (List Char)
  | acc, '\n' :: '\n' :: rest =>
    acc.reverse :: splitParagraphsAux [] (rest.dropWhile (fun c => c = '\n'))
  | acc, c :: rest => splitParagraphsAux (c :: acc) rest
  | acc, [] => [acc.reverse]
termination_by _ s => s.length
decreasing_by
  all_goals simp_wf
  all_goals
    first
    | omega
    | · have h : (rest.dropWhile (fun c => c = '\n')).length ≤ rest.length :=
          (List.dropWhile_suffix _).length_le
        omega

/-- `text.split(/\n{2,}/)`. -/
def splitParagraphs (text : List Char) : List (List Char) :=
  splitParagraphsAux [] text

/-- `getParagraph(text, index)`: pick paragraph `index % paragraphs.length`
of the blank-line-separated paragraphs and append `"\n\n"`. -/
def getParagraph (text : List Char) (index : Nat) : List Char :=
  let paragraphs := splitParagraphs text
  let paragraphIndex := index % paragraphs.length
  (paragraphs.getD paragraphIndex []) ++ '\n' :: '\n' :: []

/-! ### Regular-expression matchers for the Text Normalizer

The source uses four fixed regular expressions (src/index.js lines 52, 62,
72-80).  Each is modelled by an executable matcher reproducing the JS
backtracking behaviour of that concrete pattern.  `\s` is modelled over the
ASCII whitespace characters (the corpus is ASCII text). -/

/-- The characters matched by `\s` (ASCII part). -/
def isWS (c : Char) : Bool :=
  c = ' ' || c = '\t' || c = '\n' || c = '\r' || c = '\x0b' || c = '\x0c'

/-- The line terminators JS `.` refuses to match and multiline `$` stops at. -/
def isLineTerm (c : Char) : Bool :=
  c = '\n' || c = '\r'

/-- Consume a literal, comparing case-insensitively (for the `/i` patterns);
the literal is given in lowercase.  Returns the remainder after the match. -/
def dropLit : List Char → List Char → Option (List Char)
  | [], s => some s
  | l :: ls, c :: cs => if c.toLower = l then dropLit ls cs else none
  | _ :: _, [] => none

/-- Consume a literal, comparing exactly (for the patterns without `/i`). -/
def dropLitCS : List Char → List Char → Option (List Char)
  | [], s => some s
  | l :: ls, c :: cs => if c = l then dropLitCS ls cs else none
  | _ :: _, [] => none

/-- `\s+`: at least one whitespace character, then the maximal run
(the following pattern parts all begin with a non-whitespace literal,
so the greedy run never backtracks). -/
def dropWS1 (s : List Char) : Option (List Char) :=
  match s with
  | c :: cs => if isWS c then some (cs.dropWhile (fun d => isWS d)) else none
  | [] => none

/-- `.*?[\*]+`: lazily scan (never across a line terminator) for the first
asterisk, then consume the greedy run of asterisks. -/
def dropToStars : List Char → Option (List Char)
  | [] => none
  | c :: cs =>
    if c = '*' then some (cs.dropWhile (fun d => d = '*'))
    else if isLineTerm c then none
    else dropToStars cs

/-- `project\s+gutenberg` (case-insensitive). -/
def corePG (s : List Char) : Option (List Char) :=
  (dropLit "project".toList s).bind fun t =>
  (dropWS1 t).bind fun t =>
  dropLit "gutenberg".toList t

/-- `(th(is|e)\s+)?` followed by continuation `k`: the optional group is
tried first ("is" before "e"); when the whole continuation fails under the
group, the group is dropped — the backtracking a JS engine performs. -/
def groupThen (k : List Char → Option (List Char)) (s : List Char) :
    Option (List Char) :=
  let withGroup :=
    ((dropLit "th".toList s).bind fun t =>
      match dropLit "is".toList t with
      | some t2 => dropWS1 t2
      | none => (dropLit "e".toList t).bind dropWS1).bind k
  match withGroup with
  | some r => some r
  | none => k s

/-- `start\s+of\s+(th(is|e)\s+)?project\s+gutenberg.*?[\*]+` (`/i`), matched
at the head of `s`; returns the remainder after the match. -/
def p1Match (s : List Char) : Option (List Char) :=
  (dropLit "start".toList s).bind fun t =>
  (dropWS1 t).bind fun t =>
  (dropLit "of".toList t).bind fun t =>
  (dropWS1 t).bind fun t =>
  groupThen (fun u => (corePG u).bind dropToStars) t

/-- The latest position of `s` where `p1Match` succeeds (the greedy
`^[\s\S]*` of the first stripping regex prefers the latest start), with the
remainder after that match. -/
def lastP1 : List Char → Option (List Char)
  | [] => p1Match []
  | c :: cs =>
    match lastP1 cs with
    | some r => some r
    | none => p1Match (c :: cs)

/-- `text.replace(/^[\s\S]*start\s+of\s+(th(is|e)\s+)?project\s+gutenberg.*?[\*]+/i, '')`:
everything up to the end of the (greedy-latest) header marker is removed. -/
def replace1 (s : List Char) : List Char :=
  match lastP1 s with
  | some rest => rest
  | none => s

/-- `[\*]*\s*end\s+of\s+(th(is|e)\s+)?project\s+gutenberg` matched at the
head of `s` (the trailing `[\s\S]*$` of the second regex always succeeds). -/
def p2At (s : List Char) : Bool :=
  let t := (s.dropWhile (fun c => c = '*')).dropWhile (fun c => isWS c)
  ((((dropLit "end".toList t).bind dropWS1).bind fun u =>
      (dropLit "of".toList u).bind dropWS1).bind
    (groupThen corePG)).isSome

/-- `output.replace(/[\*]*\s*end\s+of\s+(th(is|e)\s+)?project\s+gutenberg[\s\S]*$/i, '')`:
everything from the leftmost footer marker to the end is removed. -/
def replace2 : List Char → List Char
  | [] => []
  | c :: cs => if p2At (c :: cs) then [] else c :: replace2 cs

/-- Whether the footer-marker pattern of `replace2` matches at any
position of `s` (the leftmost such position is where `replace2` cuts). -/
def hasP2 : List Char → Bool
  | [] => p2At []
  | c :: cs => p2At (c :: cs) || hasP2 cs

/-- `(\r\n){2,}` at the head: two CRLF pairs then the greedy run of pairs. -/
def crlf2 : List Char → Option (List Char)
  | '\r' :: '\n' :: '\r' :: '\n' :: rest => some (dropCRLFruns rest)
  | _ => none
where
  dropCRLFruns : List Char → List Char
    | '\r' :: '\n' :: rest => dropCRLFruns rest
    | s => s

/-- `[\s\S]+?(\r\n){2,}`: at least one character, lazily extended until a
double CRLF follows, which is then consumed greedily. -/
def lazyToCRLF2 : List Char → Option (List Char)
  | [] => none
  | _ :: rest =>
    match crlf2 rest with
    | some r => some r
    | none => lazyToCRLF2 rest

/-- `^\s*produced\s+by[\s\S]+?(\r\n){2,}` (`/i`, anchored at the start). -/
def p3Match (s : List Char) : Option (List Char) :=
  let t := s.dropWhile (fun c => isWS c)
  match ((dropLit "produced".toList t).bind dropWS1).bind
      (dropLit "by".toList) with
  | none => none
  | some r => lazyToCRLF2 r

/-- `output.replace(/^\s*produced\s+by[\s\S]+?(\r\n){2,}/i, '')`. -/
def replace3 (s : List Char) : List Char :=
  match p3Match s with
  | some rest => rest
  | none => s

/-- JS `String.prototype.trim` (over the ASCII whitespace set). -/
def jsTrim (s : List Char) : List Char :=
  ((s.dropWhile (fun c => isWS c)).reverse.dropWhile (fun c => isWS c)).reverse

/-- `stripGutenbergBoilerplate`, src/index.js lines 71-85: the three
replacements in order, then `trim()`. -/
def stripGutenbergBoilerplate (text : List Char) : List Char :=
  jsTrim (replace3 (replace2 (replace1 text)))

/-- `.replace(/\r\n/g, '\n')`: left-to-right, non-overlapping. -/
def replaceCRLF : List Char → List Char
  | '\r' :: '\n' :: rest => '\n' :: replaceCRLF rest
  | c :: rest => c :: replaceCRLF rest
  | [] => []

/-! ### Declaration scanning — `getBookEncoding` / `getBookLanguage`,
src/index.js lines 51-69 -/

/-- Leftmost occurrence of a literal (matched exactly, the two declaration
regexes carry no `/i` flag); returns the remainder after the literal. -/
def findAfterLit (lit : List Char) : List Char → Option (List Char)
  | [] => dropLitCS lit []
  | c :: cs =>
    match dropLitCS lit (c :: cs) with
    | some r => some r
    | none => findAfterLit lit cs

/-- The capture of `(.*?)$` under `/m`: the characters up to the next line
terminator (or the end of the string). -/
def lineCapture (s : List Char) : List Char :=
  s.takeWhile (fun c => !isLineTerm c)

/-- `getBookEncoding(text)`: first match of
`/Character set encoding: (.*?)$/m`, lowercased; `'ascii'` when absent. -/
def getBookEncoding (text : List Char) : List Char :=
  match findAfterLit ("Character set encoding: ".toList) text with
  | none => "ascii".toList
  | some r => (lineCapture r).map Char.toLower

/-- `getBookLanguage(text)`: first match of `/Language: (.*?)$/m`,
lowercased; `'english'` when absent. -/
def getBookLanguage (text : List Char) : List Char :=
  match findAfterLit ("Language: ".toList) text with
  | none => "english".toList
  | some r => (lineCapture r).map Char.toLower

/-- Leftmost occurrence of a literal compared case-insensitively
(the literal given in lowercase). -/
def findAfterLitCI (lit : List Char) : List Char → Option (List Char)
  | [] => dropLit lit []
  | c :: cs =>
    match dropLit lit (c :: cs) with
    | some r => some r
    | none => findAfterLitCI lit cs

/-- Modelled from the spec: "Determines encoding from an embedded
declaration line matching a `Character set encoding: <name>` pattern
(case-insensitive), defaulting to a baseline single-byte encoding when
absent" — the case-INSENSITIVE reading of the matcher, used to compare the
spec's words against the source's case-sensitive `getBookEncoding`. -/
def getBookEncodingSpecCI (text : List Char) : List Char :=
  match findAfterLitCI ("character set encoding: ".toList) text with
  | none => "ascii".toList
  | some r => (lineCapture r).map Char.toLower

/-! ### Blob processing — `getGutenbergBookFromBlob`, src/index.js
lines 87-131 (the pure decision structure after the blob arrived) -/

/-- The last cleaning steps applied in `getGutenbergBookFromBlob`
(lines 122-126): boilerplate stripping, then removal of `_` and `+`,
then CRLF normalization. -/
def normalizeText (decodedText : List Char) : List Char :=
  replaceCRLF
    (((stripGutenbergBoilerplate decodedText).filter (fun c => c ≠ '_')).filter
      (fun c => c ≠ '+'))

/-- Errors produced while normalizing one blob. -/
inductive BlobError where
  | dialect
  | illegible
deriving DecidableEq, Repr

/-- One blob: `fullText` is `fullTextBuffer.toString()`; `decode charset`
models `fullTextBuffer.toString(charset)` (`none` = it threw) and
`iconvDecode charset` models the `iconv` fallback conversion
(`none` = it threw too). -/
structure Blob where
  fullText : List Char
  decode : List Char → Option (List Char)
  iconvDecode : List Char → Option (List Char)

/-- The decision structure of `getGutenbergBookFromBlob` lines 100-128:
reject a non-english declared language before any decoding, otherwise
decode by the declared charset (with the iconv fallback, and the
illegible error when both throw) and clean the decoded text. -/
def processBlob (b : Blob) : Except BlobError (List Char) :=
  if getBookLanguage b.fullText ≠ "english".toList then
    .error .dialect
  else
    let charset := getBookEncoding b.fullText
    match b.decode charset with
    | some decodedText => .ok (normalizeText decodedText)
    | none =>
      match b.iconvDecode charset with
      | some decodedText => .ok (normalizeText decodedText)
      | none => .error .illegible

/-! ### Paragraph Chain Assembly Engine — `trySimilarParagraph` and
`addParagraph`, src/index.js lines 208-260 -/

/-- The mutable state threaded through `addParagraph`: the current seed
`index`, the remaining paragraph `count`, the visited-seed `cache`
(`cache[index] = true` modelled as list membership) and the text written
to the `book` stream so far. -/
structure ChainState where
  index : Nat
  count : Nat
  cache : List Nat
  output : List Char
deriving DecidableEq, Repr

/-- A failure delivered through a callback's `err` argument while
resolving one candidate book: a transport error from the provider, the
"missing from the library" search miss, the "should be around here
somewhere" tree miss, the unfamiliar-dialect rejection, or the illegible
decode. -/
inductive BookFailure where
  | providerErr
  | repoNotFound
  | bookNotFound
  | dialect
  | illegible
deriving DecidableEq, Repr

/-- What one `addParagraph` invocation does before re-entering itself. -/
inductive StepResult where
  | done
  | next (st : ChainState)
deriving DecidableEq, Repr

/-- `trySimilarParagraph` (lines 208-216): write the fixed `extraText`
`'\n'` to the book stream and call back with
`index + getNextIndex(extraText)`; the `retry` continuation re-enters with
the same `count` and `cache`. -/
def retryState (st : ChainState) : ChainState :=
  { st with
      output := st.output ++ '\n' :: []
      index := st.index + getNextIndex ('\n' :: []) }

/-- One unfolding of `addParagraph` (lines 218-260).  `fetch` models the
whole `getGutenbergBook` resolution of one book identifier: the outer
`Except.error ()` is the `getRateTimeout` throw when rate-limit headers
are absent (it escapes every callback uncaught), the inner
`Except.error e` is an error delivered through the callback and caught at
line 242, and the inner `.ok text` is the normalized full text. -/
def engineStep (maxId : Nat) (excludes : List Nat)
    (fetch : Nat → Except Unit (Except BookFailure (List Char)))
    (st : ChainState) : Except Unit StepResult :=
  if st.count < 1 then .ok .done
  else if st.index ∈ st.cache then .ok (.next (retryState st))
  else
    let bookId := clampBookId maxId st.index
    if bookId ∈ excludes then .ok (.next (retryState st))
    else
      match fetch bookId with
      | .error u => .error u
      | .ok (.error _e) => .ok (.next (retryState st))
      | .ok (.ok result) =>
        let paragraph := getParagraph result st.index
        .ok (.next
          { index := getNextIndex paragraph
            count := st.count - 1
            cache := st.index :: st.cache
            output := st.output ++ paragraph })

/-- Iterate `engineStep` with explicit fuel (the source recursion has no
termination guarantee — the retry path can loop; fuel exhaustion returns
the state reached so far). -/
def runEngine (maxId : Nat) (excludes : List Nat)
    (fetch : Nat → Except Unit (Except BookFailure (List Char))) :
    Nat → ChainState → Except Unit ChainState
  | 0, st => .ok st
  | fuel + 1, st =>
    match engineStep maxId excludes fetch st with
    | .error u => .error u
    | .ok .done => .ok st
    | .ok (.next st2) => runEngine maxId excludes fetch fuel st2

/-! ### Helper lemmas (shared) -/

theorem foldl_toNat_acc (s : List Char) :
    ∀ acc : Nat, s.foldl (fun a c => a + c.toNat) acc = acc + (s.map Char.toNat).sum := by
  induction s with
  | nil => intro acc; simp
  | cons c cs ih =>
    intro acc
    simp [List.foldl_cons, ih, Nat.add_assoc]

theorem splitParagraphsAux_ne_nil (acc s : List Char) :
    splitParagraphsAux acc s ≠ [] := by
  induction acc, s using splitParagraphsAux.induct with
  | case1 acc rest ih => simp [splitParagraphsAux]
  | case2 acc c rest h ih => rw [splitParagraphsAux.eq_def]; aesop
  | case3 acc => simp [splitParagraphsAux]

theorem splitParagraphs_ne_nil (text : List Char) : splitParagraphs text ≠ [] :=
  splitParagraphsAux_ne_nil [] text

/-! ### C1 -/

/-- C1: the Index Derivation Function is a pure total function of its
input (hence deterministic) and returns the sum of the numeric codes of
the characters of the string, in iteration order. -/
theorem derive_is_sum_of_char_codes (s : List Char) :
    getNextIndex s = (s.map Char.toNat).sum := by
  have h := foldl_toNat_acc s 0
  simpa [getNextIndex] using h

/-! ### C10 -/

/-- C10: paragraph selection is total: every text (the empty one and
separator-free ones included) splits into at least one paragraph, so the
modulus is never zero, the reduced index is in range and `getParagraph`
returns that paragraph followed by exactly one blank-line separator. -/
theorem paragraph_selection_total (text : List Char) (index : Nat) :
    ∃ h : index % (splitParagraphs text).length < (splitParagraphs text).length,
      0 < (splitParagraphs text).length ∧
      getParagraph text index =
        (splitParagraphs text).get
          ⟨index % (splitParagraphs text).length, h⟩ ++ '\n' :: '\n' :: [] := by
  have hpos : 0 < (splitParagraphs text).length :=
    List.length_pos.mpr (splitParagraphs_ne_nil text)
  have hlt : index % (splitParagraphs text).length < (splitParagraphs text).length :=
    Nat.mod_lt _ hpos
  refine ⟨hlt, hpos, ?_⟩
  simp only [getParagraph]
  rw [List.getD_eq_get (splitParagraphs text) [] hlt]

/-! ### C8 -/

/-- C8: the Backoff Scheduler returns zero when the remaining quota is at
least 1, returns `reset * 1000 - now` (possibly negative) when the
remaining quota is below 1, and throws exactly when the header metadata is
absent entirely. -/
theorem rate_timeout_contract (headers : Option RateHeaders) (now : Int) :
    (∀ h, headers = some h → 1 ≤ h.remaining →
      getRateTimeout headers now = .ok 0) ∧
    (∀ h, headers = some h → h.remaining < 1 →
      getRateTimeout headers now = .ok (h.reset * 1000 - now)) ∧
    (getRateTimeout headers now = .error () ↔ headers = none) := by
  refine ⟨?_, ?_, ?_⟩
  · intro h hh hr
    subst hh
    simp [getRateTimeout, Int.not_lt.mpr hr]
  · intro h hh hr
    subst hh
    simp [getRateTimeout, hr]
  · cases headers with
    | none => simp [getRateTimeout]
    | some h =>
      simp only [getRateTimeout]
      constructor
      · intro hcontra
        split at hcontra <;> simp_all
      · intro hcontra
        simp at hcontra

/-- Witness for C8 at concrete inputs: a below-quota response whose reset
time already passed yields the (negative) value `-1000`, and absent
metadata throws. -/
theorem rate_timeout_contract_witness :
    getRateTimeout (some ⟨0, 5⟩) 6000 = .ok (-1000) ∧
    getRateTimeout none 6000 = .error () := by
  constructor
  · have h := (rate_timeout_contract (some ⟨0, 5⟩) 6000).2.1 ⟨0, 5⟩ rfl (by decide)
    simpa using h
  · exact (rate_timeout_contract none 6000).2.2.mpr rfl

/-! ### Engine step helper lemmas -/

theorem engineStep_retry (maxId : Nat) (excludes : List Nat)
    (fetch : Nat → Except Unit (Except BookFailure (List Char)))
    (st : ChainState) (hc : ¬ st.count < 1)
    (h : st.index ∈ st.cache ∨ clampBookId maxId st.index ∈ excludes ∨
      ∃ e, fetch (clampBookId maxId st.index) = .ok (.error e)) :
    engineStep maxId excludes fetch st = .ok (.next (retryState st)) := by
  simp only [engineStep, if_neg hc]
  by_cases h1 : st.index ∈ st.cache
  · simp [h1]
  · simp only [if_neg h1]
    by_cases h2 : clampBookId maxId st.index ∈ excludes
    · simp [h2]
    · simp only [if_neg h2]
      rcases h with h1' | h2' | ⟨e, he⟩
      · exact absurd h1' h1
      · exact absurd h2' h2
      · rw [he]

/-! ### C2 -/

/-- C2 counterexample: two retry steps (both from visited seeds) re-enter
with DIFFERENT new seeds (15 and 17), so the new seed is not a function of
the fixed single-newline fallback unit alone; it depends on the seed being
retried. -/
theorem retry_seed_not_constant_counterexample :
    engineStep 100 [] (fun _ => .ok (.error .bookNotFound))
        ⟨5, 3, [5], []⟩ = .ok (.next ⟨15, 3, [5], '\n' :: []⟩) ∧
    engineStep 100 [] (fun _ => .ok (.error .bookNotFound))
        ⟨7, 3, [7], []⟩ = .ok (.next ⟨17, 3, [7], '\n' :: []⟩) ∧
    (15 : Nat) ≠ 17 := by
  refine ⟨?_, ?_, by decide⟩ <;> rfl

/-- C2 amended: on every retry path (visited seed, excluded book
identifier, or caught per-book failure) the Engine re-enters the step with
the retried seed ADVANCED BY the constant derived from the fixed
single-newline fallback unit: the increment `getNextIndex "\n" = 10` is
the same every time, but the new seed `index + 10` depends on the seed
being retried. -/
theorem retry_advances_seed_by_fallback_constant (maxId : Nat)
    (excludes : List Nat)
    (fetch : Nat → Except Unit (Except BookFailure (List Char)))
    (st : ChainState) (hc : ¬ st.count < 1)
    (h : st.index ∈ st.cache ∨ clampBookId maxId st.index ∈ excludes ∨
      ∃ e, fetch (clampBookId maxId st.index) = .ok (.error e)) :
    engineStep maxId excludes fetch st = .ok (.next (retryState st)) ∧
    (retryState st).index = st.index + getNextIndex ('\n' :: []) ∧
    getNextIndex ('\n' :: []) = 10 :=
  ⟨engineStep_retry maxId excludes fetch st hc h, rfl, rfl⟩

/-- Witness for the amended C2 at a concrete retry step. -/
theorem retry_advances_seed_by_fallback_constant_witness :
    engineStep 100 [] (fun _ => .ok (.error .providerErr))
        ⟨23, 4, [23], []⟩ = .ok (.next (retryState ⟨23, 4, [23], []⟩)) ∧
    (retryState ⟨23, 4, [23], []⟩).index = 23 + getNextIndex ('\n' :: []) ∧
    getNextIndex ('\n' :: []) = 10 :=
  retry_advances_seed_by_fallback_constant 100 []
    (fun _ => .ok (.error .providerErr)) ⟨23, 4, [23], []⟩
    (by decide) (Or.inl (by decide))

/-! ### C3 -/

/-- C3 counterexample: a retry step (seed 42 is visited) does NOT leave
the accumulated text as it was: it appends the single-newline fallback
unit, taking the output from `[]` to `"\n"`. -/
theorem retry_appends_newline_counterexample :
    engineStep 100 [] (fun _ => .ok (.error .bookNotFound))
        ⟨42, 2, [42], []⟩ = .ok (.next ⟨52, 2, [42], '\n' :: []⟩) ∧
    ('\n' :: [] : List Char) ≠ [] := by
  exact ⟨rfl, by decide⟩

/-- C3 amended: on the retry path the Engine appends no PARAGRAPH, but it
does append exactly the single-newline fallback unit to the accumulated
text (`book.write(extraText)` with `extraText = '\n'`); the remaining
count and the visited cache are unchanged. -/
theorem retry_appends_exactly_fallback_newline (maxId : Nat)
    (excludes : List Nat)
    (fetch : Nat → Except Unit (Except BookFailure (List Char)))
    (st : ChainState) (hc : ¬ st.count < 1)
    (h : st.index ∈ st.cache ∨ clampBookId maxId st.index ∈ excludes ∨
      ∃ e, fetch (clampBookId maxId st.index) = .ok (.error e)) :
    engineStep maxId excludes fetch st = .ok (.next (retryState st)) ∧
    (retryState st).output = st.output ++ '\n' :: [] ∧
    (retryState st).count = st.count ∧
    (retryState st).cache = st.cache :=
  ⟨engineStep_retry maxId excludes fetch st hc h, rfl, rfl, rfl⟩

/-- Witness for the amended C3 at a concrete retry step (an excluded book
identifier this time: 42 ∈ excludes and the seed 42 clamps to 42). -/
theorem retry_appends_exactly_fallback_newline_witness :
    engineStep 100 [42] (fun _ => .ok (.error .providerErr))
        ⟨42, 2, [], 'a' :: []⟩ = .ok (.next (retryState ⟨42, 2, [], 'a' :: []⟩)) ∧
    (retryState ⟨42, 2, [], 'a' :: []⟩).output = 'a' :: [] ++ '\n' :: [] ∧
    (retryState ⟨42, 2, [], 'a' :: []⟩).count = 2 ∧
    (retryState ⟨42, 2, [], 'a' :: []⟩).cache = [] :=
  retry_appends_exactly_fallback_newline 100 [42]
    (fun _ => .ok (.error .providerErr)) ⟨42, 2, [], 'a' :: []⟩
    (by decide) (Or.inr (Or.inl (by decide)))

/-! ### C4 -/

/-- C4: every continuing step of the Engine either is a retry-path step
that re-enters with the SAME remaining count, or successfully appends the
selected paragraph and decrements the remaining count by exactly one —
no other transition exists. -/
theorem count_decrements_exactly_on_append (maxId : Nat) (excludes : List Nat)
    (fetch : Nat → Except Unit (Except BookFailure (List Char)))
    (st st' : ChainState)
    (hstep : engineStep maxId excludes fetch st = .ok (.next st')) :
    (st'.count = st.count ∧ st' = retryState st) ∨
    (st'.count + 1 = st.count ∧ ∃ result,
      fetch (clampBookId maxId st.index) = .ok (.ok result) ∧
      st' = ⟨getNextIndex (getParagraph result st.index), st.count - 1,
             st.index :: st.cache, st.output ++ getParagraph result st.index⟩) := by
  by_cases hc : st.count < 1
  · simp [engineStep, hc] at hstep
  · simp only [engineStep, if_neg hc] at hstep
    by_cases h1 : st.index ∈ st.cache
    · left
      simp only [if_pos h1, Except.ok.injEq, StepResult.next.injEq] at hstep
      subst hstep
      exact ⟨rfl, rfl⟩
    · simp only [if_neg h1] at hstep
      by_cases h2 : clampBookId maxId st.index ∈ excludes
      · left
        simp only [if_pos h2, Except.ok.injEq, StepResult.next.injEq] at hstep
        subst hstep
        exact ⟨rfl, rfl⟩
      · simp only [if_neg h2] at hstep
        cases hfetch : fetch (clampBookId maxId st.index) with
        | error u => rw [hfetch] at hstep; exact absurd hstep (by simp)
        | ok inner =>
          rw [hfetch] at hstep
          cases inner with
          | error e =>
            left
            simp only [Except.ok.injEq, StepResult.next.injEq] at hstep
            subst hstep
            exact ⟨rfl, rfl⟩
          | ok result =>
            right
            simp only [Except.ok.injEq, StepResult.next.injEq] at hstep
            subst hstep
            refine ⟨?_, result, rfl, rfl⟩
            show st.count - 1 + 1 = st.count
            omega

/-- Witness for C4 at a concrete successful step: the paragraph
`"pa\n\n"` is appended and the count drops from 1 to 0. -/
theorem count_decrements_exactly_on_append_witness :
    ((⟨getNextIndex (getParagraph ('p' :: 'a' :: []) 0), 0, 0 :: [],
        getParagraph ('p' :: 'a' :: []) 0⟩ : ChainState).count = (1 : Nat) ∧
      (⟨getNextIndex (getParagraph ('p' :: 'a' :: []) 0), 0, 0 :: [],
        getParagraph ('p' :: 'a' :: []) 0⟩ : ChainState) =
        retryState ⟨0, 1, [], []⟩) ∨
    ((⟨getNextIndex (getParagraph ('p' :: 'a' :: []) 0), 0, 0 :: [],
        getParagraph ('p' :: 'a' :: []) 0⟩ : ChainState).count + 1 = 1 ∧
      ∃ result,
        (fun _ : Nat => (.ok (.ok ('p' :: 'a' :: [])) :
            Except Unit (Except BookFailure (List Char)))) (clampBookId 100 0) =
          .ok (.ok result) ∧
        (⟨getNextIndex (getParagraph ('p' :: 'a' :: []) 0), 0, 0 :: [],
          getParagraph ('p' :: 'a' :: []) 0⟩ : ChainState) =
          ⟨getNextIndex (getParagraph result 0), 1 - 1, 0 :: [],
           [] ++ getParagraph result 0⟩) :=
  count_decrements_exactly_on_append 100 []
    (fun _ => .ok (.ok ('p' :: 'a' :: []))) ⟨0, 1, [], []⟩
    ⟨getNextIndex (getParagraph ('p' :: 'a' :: []) 0), 0, 0 :: [],
     getParagraph ('p' :: 'a' :: []) 0⟩ (by rfl)

/-! ### C5 -/

/-- C5: every per-book failure delivered through the callbacks (provider
transport error, repo not found, book not found, dialect rejected,
illegible) is caught at the step boundary and turned into a retry-path
advance, never aborting the run; the step aborts exactly when the
rate-limit-metadata-absent throw escapes, and that throw is the only way
a step aborts. -/
theorem book_failures_caught_rate_limit_fatal (maxId : Nat)
    (excludes : List Nat)
    (fetch : Nat → Except Unit (Except BookFailure (List Char)))
    (st : ChainState) :
    (∀ e : BookFailure, ¬ st.count < 1 →
      fetch (clampBookId maxId st.index) = .ok (.error e) →
      engineStep maxId excludes fetch st = .ok (.next (retryState st))) ∧
    (∀ u : Unit, ¬ st.count < 1 → st.index ∉ st.cache →
      clampBookId maxId st.index ∉ excludes →
      fetch (clampBookId maxId st.index) = .error u →
      engineStep maxId excludes fetch st = .error u) ∧
    (∀ u : Unit, engineStep maxId excludes fetch st = .error u →
      ¬ st.count < 1 ∧ st.index ∉ st.cache ∧
      clampBookId maxId st.index ∉ excludes ∧
      fetch (clampBookId maxId st.index) = .error u) := by
  refine ⟨?_, ?_, ?_⟩
  · intro e hc hf
    exact engineStep_retry maxId excludes fetch st hc (Or.inr (Or.inr ⟨e, hf⟩))
  · intro u hc h1 h2 hf
    simp only [engineStep, if_neg hc, if_neg h1, if_neg h2, hf]
  · intro u habort
    by_cases hc : st.count < 1
    · simp only [engineStep, if_pos hc] at habort
      exact absurd habort (by simp)
    · by_cases h1 : st.index ∈ st.cache
      · have h := engineStep_retry maxId excludes fetch st hc (Or.inl h1)
        rw [h] at habort
        exact absurd habort (by simp)
      · by_cases h2 : clampBookId maxId st.index ∈ excludes
        · have h := engineStep_retry maxId excludes fetch st hc (Or.inr (Or.inl h2))
          rw [h] at habort
          exact absurd habort (by simp)
        · refine ⟨hc, h1, h2, ?_⟩
          simp only [engineStep, if_neg hc, if_neg h1, if_neg h2] at habort
          cases hfetch : fetch (clampBookId maxId st.index) with
          | error v =>
            cases u
            cases v
            rfl
          | ok inner =>
            rw [hfetch] at habort
            cases inner <;> simp at habort

/-- Witness for C5 at concrete inputs: a dialect rejection is downgraded
to a retry, and an absent-rate-limit throw aborts the step. -/
theorem book_failures_caught_rate_limit_fatal_witness :
    engineStep 100 [] (fun _ => .ok (.error .dialect)) ⟨3, 1, [], []⟩ =
      .ok (.next (retryState ⟨3, 1, [], []⟩)) ∧
    engineStep 100 [] (fun _ => .error ()) ⟨3, 1, [], []⟩ = .error () := by
  constructor
  · exact (book_failures_caught_rate_limit_fatal 100 []
      (fun _ => .ok (.error .dialect)) ⟨3, 1, [], []⟩).1 .dialect
      (by decide) rfl
  · exact (book_failures_caught_rate_limit_fatal 100 []
      (fun _ => .error ()) ⟨3, 1, [], []⟩).2.1 () (by decide) (by decide)
      (by decide) rfl

/-! ### C7 -/

theorem engineStep_cache_mono (maxId : Nat) (excludes : List Nat)
    (fetch : Nat → Except Unit (Except BookFailure (List Char)))
    (st st' : ChainState)
    (hstep : engineStep maxId excludes fetch st = .ok (.next st')) :
    st.cache ⊆ st'.cache := by
  rcases count_decrements_exactly_on_append maxId excludes fetch st st' hstep with
    ⟨_, hret⟩ | ⟨_, result, _, hsucc⟩
  · subst hret
    exact fun a ha => ha
  · subst hsucc
    exact fun a ha => List.mem_cons_of_mem _ ha

theorem runEngine_cache_mono (maxId : Nat) (excludes : List Nat)
    (fetch : Nat → Except Unit (Except BookFailure (List Char))) :
    ∀ (fuel : Nat) (st st2 : ChainState),
      runEngine maxId excludes fetch fuel st = .ok st2 →
      st.cache ⊆ st2.cache := by
  intro fuel
  induction fuel with
  | zero =>
    intro st st2 hrun
    simp only [runEngine, Except.ok.injEq] at hrun
    subst hrun
    exact fun a ha => ha
  | succ n ih =>
    intro st st2 hrun
    simp only [runEngine] at hrun
    cases hstep : engineStep maxId excludes fetch st with
    | error u => rw [hstep] at hrun; simp at hrun
    | ok res =>
      rw [hstep] at hrun
      cases res with
      | done =>
        simp only [Except.ok.injEq] at hrun
        subst hrun
        exact fun a ha => ha
      | next stm =>
        exact fun a ha =>
          ih stm st2 hrun (engineStep_cache_mono maxId excludes fetch st stm hstep ha)

/-- C7: the Visited-Seed Cache grows monotonically — across one step and
across any whole run, every seed present before is still present after —
and a step starting from a visited seed always takes the retry path (so a
cached seed is never again used to select a paragraph). -/
theorem visited_cache_monotone_and_never_reused (maxId : Nat)
    (excludes : List Nat)
    (fetch : Nat → Except Unit (Except BookFailure (List Char))) :
    (∀ st st' : ChainState,
      engineStep maxId excludes fetch st = .ok (.next st') →
      st.cache ⊆ st'.cache) ∧
    (∀ (fuel : Nat) (st st2 : ChainState),
      runEngine maxId excludes fetch fuel st = .ok st2 →
      st.cache ⊆ st2.cache) ∧
    (∀ st : ChainState, ¬ st.count < 1 → st.index ∈ st.cache →
      engineStep maxId excludes fetch st = .ok (.next (retryState st))) :=
  ⟨fun st st' h => engineStep_cache_mono maxId excludes fetch st st' h,
   runEngine_cache_mono maxId excludes fetch,
   fun st hc hv => engineStep_retry maxId excludes fetch st hc (Or.inl hv)⟩

/-- Witness for C7 at a concrete run: one retry then fuel exhaustion; the
initially cached seed 9 is still cached at the end, and the visited seed 9
takes the retry path. -/
theorem visited_cache_monotone_and_never_reused_witness :
    ((9 : Nat) ∈
      (⟨19, 1, [9], '\n' :: []⟩ : ChainState).cache) ∧
    engineStep 50 [] (fun _ => .ok (.error .repoNotFound)) ⟨9, 1, [9], []⟩ =
      .ok (.next (retryState ⟨9, 1, [9], []⟩)) := by
  constructor
  · have hmono := (visited_cache_monotone_and_never_reused 50 []
      (fun _ => .ok (.error .repoNotFound))).2.1 1 ⟨9, 1, [9], []⟩
      ⟨19, 1, [9], '\n' :: []⟩ (by rfl)
    exact hmono (by decide)
  · exact (visited_cache_monotone_and_never_reused 50 []
      (fun _ => .ok (.error .repoNotFound))).2.2 ⟨9, 1, [9], []⟩
      (by decide) (by decide)

/-! ### Literal-occurrence helper lemmas for C6 -/

theorem dropLitCS_self_append (lit rest : List Char) :
    dropLitCS lit (lit ++ rest) = some rest := by
  induction lit with
  | nil => rfl
  | cons l ls ih => simp [dropLitCS, ih]

theorem dropLitCS_eq_some (lit : List Char) :
    ∀ s r : List Char, dropLitCS lit s = some r → s = lit ++ r := by
  induction lit with
  | nil =>
    intro s r h
    simp only [dropLitCS, Option.some.injEq] at h
    simpa using h
  | cons l ls ih =>
    intro s r h
    cases s with
    | nil => simp [dropLitCS] at h
    | cons c cs =>
      simp only [dropLitCS] at h
      by_cases hc : c = l
      · rw [if_pos hc] at h
        subst hc
        simpa using ih cs r h
      · rw [if_neg hc] at h
        exact absurd h (by simp)

theorem findAfterLit_eq_some (lit : List Char) :
    ∀ s r : List Char, findAfterLit lit s = some r →
      ∃ pre, s = pre ++ (lit ++ r) := by
  intro s
  induction s with
  | nil =>
    intro r h
    simp only [findAfterLit] at h
    exact ⟨[], by simpa using dropLitCS_eq_some lit [] r h⟩
  | cons c cs ih =>
    intro r h
    simp only [findAfterLit] at h
    cases hd : dropLitCS lit (c :: cs) with
    | some r0 =>
      rw [hd] at h
      cases h
      exact ⟨[], by simpa using dropLitCS_eq_some lit (c :: cs) r hd⟩
    | none =>
      rw [hd] at h
      rcases ih r h with ⟨pre, hpre⟩
      exact ⟨c :: pre, by simp [hpre]⟩

theorem findAfterLit_isSome (lit : List Char) :
    ∀ s : List Char, (∃ pre rest, s = pre ++ (lit ++ rest)) →
      (findAfterLit lit s).isSome := by
  intro s
  induction s with
  | nil =>
    rintro ⟨pre, rest, hs⟩
    have hlit : lit = [] := by
      cases pre <;> cases lit <;> simp_all
    subst hlit
    simp [findAfterLit, dropLitCS]
  | cons c cs ih =>
    rintro ⟨pre, rest, hs⟩
    simp only [findAfterLit]
    cases hd : dropLitCS lit (c :: cs) with
    | some r0 => simp
    | none =>
      cases pre with
      | nil =>
        simp only [List.nil_append] at hs
        rw [hs] at hd
        rw [dropLitCS_self_append] at hd
        exact absurd hd (by simp)
      | cons p pre2 =>
        simp only [List.cons_append, List.cons.injEq] at hs
        exact ih ⟨pre2, rest, hs.2⟩

/-! ### C6 -/

/-- C6 counterexample: the declaration matching is NOT case-insensitive.
On a text whose declaration line is written in lowercase, the
case-insensitive matcher the spec describes captures `big5`, but the
source's matcher finds nothing and falls back to `ascii`. -/
theorem encoding_match_case_sensitivity_counterexample :
    getBookEncoding ("character set encoding: big5".toList) =
      "ascii".toList ∧
    getBookEncodingSpecCI ("character set encoding: big5".toList) =
      "big5".toList ∧
    getBookEncoding ("character set encoding: big5".toList) ≠
      getBookEncodingSpecCI ("character set encoding: big5".toList) :=
  ⟨by rfl, by rfl, by decide⟩

/-- C6 amended: the embedded declaration lines are matched
CASE-SENSITIVELY (the two regexes carry no `/i` flag): a declaration is
recognized exactly when the text contains the literal
`Character set encoding: ` / `Language: ` with that precise
capitalization, in which case the captured rest of the line is lowercased;
when no such literal occurs the defaults `ascii` and `english` are used;
and any book whose (lowercased) declared language is not `english` is
rejected with the dialect error before any decoding or normalization. -/
theorem declaration_matching_is_case_sensitive (text : List Char) (b : Blob) :
    ((∀ pre rest : List Char,
        text ≠ pre ++ ("Character set encoding: ".toList ++ rest)) →
      getBookEncoding text = "ascii".toList) ∧
    ((∀ pre rest : List Char,
        text ≠ pre ++ ("Language: ".toList ++ rest)) →
      getBookLanguage text = "english".toList) ∧
    ((∃ pre rest : List Char,
        text = pre ++ ("Character set encoding: ".toList ++ rest)) →
      ∃ r, findAfterLit ("Character set encoding: ".toList) text = some r ∧
        getBookEncoding text = (lineCapture r).map Char.toLower) ∧
    ((∃ pre rest : List Char,
        text = pre ++ ("Language: ".toList ++ rest)) →
      ∃ r, findAfterLit ("Language: ".toList) text = some r ∧
        getBookLanguage text = (lineCapture r).map Char.toLower) ∧
    (getBookLanguage b.fullText ≠ "english".toList →
      processBlob b = .error .dialect) := by
  refine ⟨?_, ?_, ?_, ?_, ?_⟩
  · intro hno
    cases hfind : findAfterLit ("Character set encoding: ".toList) text with
    | none =>
      simp only [getBookEncoding]
      rw [hfind]
    | some r =>
      rcases findAfterLit_eq_some _ text r hfind with ⟨pre, hpre⟩
      exact absurd hpre (hno pre r)
  · intro hno
    cases hfind : findAfterLit ("Language: ".toList) text with
    | none =>
      simp only [getBookLanguage]
      rw [hfind]
    | some r =>
      rcases findAfterLit_eq_some _ text r hfind with ⟨pre, hpre⟩
      exact absurd hpre (hno pre r)
  · intro hocc
    have hs := findAfterLit_isSome ("Character set encoding: ".toList) text
      (by rcases hocc with ⟨pre, rest, h⟩; exact ⟨pre, rest, h⟩)
    cases hfind : findAfterLit ("Character set encoding: ".toList) text with
    | none => rw [hfind] at hs; simp at hs
    | some r =>
      refine ⟨r, rfl, ?_⟩
      simp only [getBookEncoding]
      rw [hfind]
  · intro hocc
    have hs := findAfterLit_isSome ("Language: ".toList) text
      (by rcases hocc with ⟨pre, rest, h⟩; exact ⟨pre, rest, h⟩)
    cases hfind : findAfterLit ("Language: ".toList) text with
    | none => rw [hfind] at hs; simp at hs
    | some r =>
      refine ⟨r, rfl, ?_⟩
      simp only [getBookLanguage]
      rw [hfind]
  · intro hlang
    unfold processBlob
    rw [if_pos hlang]

/-- Witness for the amended C6: a correctly-capitalized declaration is
captured and lowercased, and a French-language book is rejected with the
dialect error (its decoders never consulted). -/
theorem declaration_matching_is_case_sensitive_witness :
    (∃ r, findAfterLit ("Character set encoding: ".toList)
        ("Character set encoding: UTF-8".toList) = some r ∧
      getBookEncoding ("Character set encoding: UTF-8".toList) =
        (lineCapture r).map Char.toLower) ∧
    processBlob ⟨"Language: French".toList, fun _ => none, fun _ => none⟩ =
      .error .dialect := by
  constructor
  · exact (declaration_matching_is_case_sensitive
      ("Character set encoding: UTF-8".toList)
      ⟨"Language: French".toList, fun _ => none, fun _ => none⟩).2.2.1
      ⟨[], "UTF-8".toList, by rfl⟩
  · exact (declaration_matching_is_case_sensitive
      ("Character set encoding: UTF-8".toList)
      ⟨"Language: French".toList, fun _ => none, fun _ => none⟩).2.2.2.2
      (by decide)

/-! ### Identity helper lemmas for C9 -/

theorem hasP2_false_replace2 (s : List Char) (h : hasP2 s = false) :
    replace2 s = s := by
  induction s with
  | nil => rfl
  | cons c cs ih =>
    simp only [hasP2, Bool.or_eq_false_iff] at h
    simp [replace2, h.1, ih h.2]

theorem replaceCRLF_eq_self (s : List Char) (h : '\r' ∉ s) :
    replaceCRLF s = s := by
  induction s using replaceCRLF.induct with
  | case1 rest ih =>
    exact absurd (List.mem_cons_self _ _) h
  | case2 c rest hne ih =>
    have hcs : '\r' ∉ rest := fun hm => h (List.mem_cons_of_mem _ hm)
    rw [replaceCRLF.eq_def]
    split
    · rename_i rest2 heq
      injection heq with h1 h2
      exact absurd h1 (fun he => h (by simp [he]))
    · rename_i c2 rest2 hx heq
      injection heq with h1 h2
      subst h1
      subst h2
      rw [ih hcs]
    · rename_i heq
      exact absurd heq (by simp)
  | case3 => rfl

/-! ### C9 -/

/-- C9 counterexample: the cleaning stage is NOT idempotent.  On the input
`"_ hi _"` the first pass finds no boilerplate, trims nothing (the
underscores guard the blanks), and only then removes the underscores,
yielding `" hi "`; a second pass trims that to `"hi"`. -/
theorem normalizer_not_idempotent_counterexample :
    normalizeText (normalizeText ("_ hi _".toList)) ≠
      normalizeText ("_ hi _".toList) := by
  have h1 : normalizeText ("_ hi _".toList) = " hi ".toList := by rfl
  have h2 : normalizeText (" hi ".toList) = "hi".toList := by rfl
  rw [h1, h2]
  decide

/-- C9 amended: the cleaning stage is idempotent only on texts already in
fully-cleaned form — matching none of the three boilerplate-stripping
patterns, already trimmed, and containing no carriage return, underscore
or plus sign.  (The normalizer's own output need not be in that form: the
counterexample's first pass leaves outer blanks that had been guarded by
underscores, and an underscore-masked boilerplate marker could likewise
surface, so idempotence fails in general.) -/
theorem normalizer_idempotent_on_cleaned (o : List Char)
    (h1 : lastP1 o = none) (h2 : hasP2 o = false) (h3 : p3Match o = none)
    (h4 : jsTrim o = o) (h5 : '\r' ∉ o) (h6 : '_' ∉ o) (h7 : '+' ∉ o) :
    normalizeText o = o := by
  have e1 : replace1 o = o := by simp [replace1, h1]
  have e2 : replace2 o = o := hasP2_false_replace2 o h2
  have e3 : replace3 o = o := by simp [replace3, h3]
  have estrip : stripGutenbergBoilerplate o = o := by
    rw [stripGutenbergBoilerplate, e1, e2, e3, h4]
  have e6 : o.filter (fun c => c ≠ '_') = o := by
    refine List.filter_eq_self.mpr ?_
    intro a ha
    have hne : a ≠ '_' := fun hEq => h6 (hEq ▸ ha)
    simp [hne]
  have e7 : o.filter (fun c => c ≠ '+') = o := by
    refine List.filter_eq_self.mpr ?_
    intro a ha
    have hne : a ≠ '+' := fun hEq => h7 (hEq ▸ ha)
    simp [hne]
  rw [normalizeText, estrip, e6, e7]
  exact replaceCRLF_eq_self o h5

/-- Witness for the amended C9 at the concrete fully-cleaned text
`"hi"`: normalizing it again changes nothing. -/
theorem normalizer_idempotent_on_cleaned_witness :
    normalizeText ("hi".toList) = "hi".toList :=
  normalizer_idempotent_on_cleaned ("hi".toList) (by rfl) (by rfl) (by rfl)
    (by rfl) (by decide) (by decide) (by decide)
